import Mathlib

/-!
Verification of the NMT gender-bias statistical analysis.

Shallow embedding of `src/code/statistical_analysis.py` and proofs about it.

Python dictionaries are embedded as association lists `List (String × ℕ)`
(respectively `List (String × ℝ)` for probability outputs), which preserves
the insertion order that Python dictionaries guarantee.  Floating point
arithmetic is idealised as real arithmetic.
-/

open Real

/-! ## Static dataset (lines 21-68 of the source) -/

/-- Spanish → Greek matching scores (out of 56 sentences), per system. -/
def spanish_greek_scores : List (String × List (String × ℕ)) :=
  [("Google Translate",
    [("English", 29), ("German", 13), ("Swedish", 20), ("Turkish", 19),
     ("Chinese", 18), ("Swahili", 18), ("Hungarian", 17), ("Italian", 13),
     ("French", 14), ("Polish", 13), ("Arabic", 13), ("Hebrew", 13), ("Hindi", 13)]),
   ("DeepL Classic",
    [("English", 22), ("German", 13), ("Swedish", 18), ("Turkish", 18),
     ("Chinese", 18), ("Swahili", 18), ("Hungarian", 17), ("French", 16),
     ("Polish", 13), ("Italian", 12), ("Arabic", 12), ("Hebrew", 12), ("Hindi", 12)]),
   ("DeepL Next Gen",
    [("Polish", 24), ("Italian", 23), ("Arabic", 24), ("Hebrew", 24),
     ("Hindi", 24), ("German", 11), ("French", 18), ("Swedish", 11),
     ("English", 10), ("Turkish", 8), ("Hungarian", 8), ("Chinese", 8), ("Swahili", 8)])]

/-- Greek → Spanish matching scores (out of 56 sentences), per system. -/
def greek_spanish_scores : List (String × List (String × ℕ)) :=
  [("Google Translate",
    [("English", 28), ("Turkish", 24), ("Swedish", 23), ("Russian", 21),
     ("Hungarian", 19), ("Swahili", 19), ("Japanese", 18), ("Chinese", 18),
     ("Albanian", 16), ("Arabic", 15), ("Hindi", 14), ("Hebrew", 14),
     ("German", 13), ("French", 12), ("Polish", 12)]),
   ("DeepL Classic",
    [("English", 20), ("Swedish", 17), ("Turkish", 17), ("Chinese", 17),
     ("Japanese", 16), ("Swahili", 15), ("Hungarian", 15), ("Russian", 15),
     ("Albanian", 14), ("Hindi", 13), ("German", 12), ("Polish", 12),
     ("Arabic", 12), ("French", 11), ("Italian", 11)]),
   ("DeepL Next Gen",
    [("Hebrew", 25), ("Italian", 24), ("Arabic", 24), ("French", 23),
     ("Polish", 22), ("Albanian", 21), ("German", 20), ("Hindi", 19),
     ("Chinese", 18), ("Russian", 14), ("Japanese", 14), ("Turkish", 13),
     ("Hungarian", 13), ("Swedish", 12), ("Swahili", 12)])]

/-- Gender bias error counts per direction and system. -/
def bias_errors : List (String × List (String × ℕ)) :=
  [("Spanish→Greek", [("Google", 45), ("DeepL Classic", 42), ("DeepL Next Gen", 5)]),
   ("Greek→Spanish", [("Google", 40), ("DeepL Classic", 37), ("DeepL Next Gen", 3)]),
   ("Combined", [("Google", 85), ("DeepL Classic", 79), ("DeepL Next Gen", 8)])]

/-- `total_sentences` per direction. -/
def total_sentences_per_direction : ℕ := 56

/-- `total_sentences` combined. -/
def total_sentences_combined : ℕ := 112

/-- Look a system up in one of the nested score tables (`table[system]`). -/
def getScores (table : List (String × List (String × ℕ))) (sys : String) :
    List (String × ℕ) :=
  ((table.lookup sys).getD [])

/-- The three systems iterated over in the combined-direction analysis. -/
def systems : List String := ["Google Translate", "DeepL Classic", "DeepL Next Gen"]

/-! ## Core functions (lines 75-112 of the source) -/

/-- `softmax(scores_dict, temperature)`: each count `c` is mapped to
`exp(c / temperature)` and divided by the sum of all such values; keys are
kept with their probabilities, in order. -/
noncomputable def softmax (scores_dict : List (String × ℕ)) (temperature : ℝ) :
    List (String × ℝ) :=
  let total := (scores_dict.map (fun p => Real.exp ((p.2 : ℝ) / temperature))).sum
  scores_dict.map (fun p => (p.1, Real.exp ((p.2 : ℝ) / temperature) / total))

/-- Cohens h effect size for two proportions:
`2 * (arcsin (sqrt p1) - arcsin (sqrt p2))`. -/
noncomputable def cohens_h (p1 p2 : ℝ) : ℝ :=
  2 * (Real.arcsin (Real.sqrt p1) - Real.arcsin (Real.sqrt p2))

/-! ## Aggregation of score distributions (lines 158-170 of the source)

The combined-direction analysis builds `all_scores` by
`all_scores[lang] = all_scores.get(lang, 0) + score` over both directions. -/

/-- One step of the accumulation loop: add `score` to `acc[lang]`, treating a
missing key as 0 (an existing key keeps its position, a new key is appended,
exactly as a Python dict behaves). -/
def addScore (acc : List (String × ℕ)) (lang : String) (score : ℕ) :
    List (String × ℕ) :=
  if (acc.lookup lang).isSome then
    acc.map (fun p => if p.1 = lang then (p.1, p.2 + score) else p)
  else
    acc ++ [(lang, score)]

/-- Fold a whole score dictionary into the accumulator (one `for` loop of the
source). -/
def addAll (acc : List (String × ℕ)) (d : List (String × ℕ)) :
    List (String × ℕ) :=
  d.foldl (fun a p => addScore a p.1 p.2) acc

/-- The Aggregator of the design: label-wise summation of an ordered sequence
of score distributions, a label absent from one input counting as 0. -/
def combine_distributions (dists : List (List (String × ℕ))) :
    List (String × ℕ) :=
  dists.foldl addAll []

/-- `all_scores` as computed for one system in the combined-direction section:
first the Spanish→Greek scores are accumulated, then the Greek→Spanish ones. -/
def all_scores (sys : String) : List (String × ℕ) :=
  addAll (addAll [] (getScores spanish_greek_scores sys))
    (getScores greek_spanish_scores sys)

/-- `combined_probs` for one system: softmax on the combined scores
(temperature 1, the source default). -/
noncomputable def combined_probs (sys : String) : List (String × ℝ) :=
  softmax (all_scores sys) 1

/-! ## Basic facts about `softmax` -/

theorem softmax_length (scores_dict : List (String × ℕ)) (t : ℝ) :
    (softmax scores_dict t).length = scores_dict.length := by
  simp [softmax]

theorem softmax_keys (scores_dict : List (String × ℕ)) (t : ℝ) :
    (softmax scores_dict t).map Prod.fst = scores_dict.map Prod.fst := by
  simp [softmax]

theorem sum_map_div (l : List ℝ) (c : ℝ) :
    (l.map (fun x => x / c)).sum = l.sum / c := by
  induction l with
  | nil => simp
  | cons x xs ih => simp [ih, add_div]

theorem exp_total_pos (scores_dict : List (String × ℕ)) (t : ℝ)
    (hne : scores_dict ≠ []) :
    0 < (scores_dict.map (fun p => Real.exp ((p.2 : ℝ) / t))).sum := by
  cases scores_dict with
  | nil => exact absurd rfl hne
  | cons x xs =>
    refine List.sum_pos _ ?_ (by simp)
    intro y hy
    rcases List.mem_map.1 hy with ⟨p, _, rfl⟩
    exact Real.exp_pos _

/-! ## Cohens h: range, symmetry, extremes -/

/-- C3: for proportions in [0,1], `cohens_h` equals the arcsine-difference
formula, lies in [-π, π], vanishes on equal arguments, and is antisymmetric,
with no post-hoc sign correction. -/
theorem cohens_h_spec (p1 p2 : ℝ) (h1 : 0 ≤ p1) (h1' : p1 ≤ 1)
    (h2 : 0 ≤ p2) (h2' : p2 ≤ 1) :
    cohens_h p1 p2 = 2 * (Real.arcsin (Real.sqrt p1) - Real.arcsin (Real.sqrt p2)) ∧
    -Real.pi ≤ cohens_h p1 p2 ∧ cohens_h p1 p2 ≤ Real.pi ∧
    cohens_h p1 p1 = 0 ∧
    cohens_h p1 p2 = -cohens_h p2 p1 := by
  have a1 : 0 ≤ Real.arcsin (Real.sqrt p1) := Real.arcsin_nonneg.2 (Real.sqrt_nonneg _)
  have a2 : 0 ≤ Real.arcsin (Real.sqrt p2) := Real.arcsin_nonneg.2 (Real.sqrt_nonneg _)
  have b1 : Real.arcsin (Real.sqrt p1) ≤ Real.pi / 2 := Real.arcsin_le_pi_div_two _
  have b2 : Real.arcsin (Real.sqrt p2) ≤ Real.pi / 2 := Real.arcsin_le_pi_div_two _
  refine ⟨rfl, ?_, ?_, ?_, ?_⟩
  · unfold cohens_h; linarith
  · unfold cohens_h; linarith
  · unfold cohens_h; ring
  · unfold cohens_h; ring

/-- Witness for C3 at the concrete proportions (1/2, 1/4). -/
theorem cohens_h_spec_witness :
    -Real.pi ≤ cohens_h (1/2) (1/4) ∧ cohens_h (1/2) (1/4) ≤ Real.pi ∧
    cohens_h (1/2) (1/4) = -cohens_h (1/4) (1/2) :=
  ⟨(cohens_h_spec (1/2) (1/4) (by norm_num) (by norm_num) (by norm_num)
      (by norm_num)).2.1,
   (cohens_h_spec (1/2) (1/4) (by norm_num) (by norm_num) (by norm_num)
      (by norm_num)).2.2.1,
   (cohens_h_spec (1/2) (1/4) (by norm_num) (by norm_num) (by norm_num)
      (by norm_num)).2.2.2.2⟩

/-- C4 counterexample: at the extremes the formula gives
`cohens_h 0 1 = -π`, not `π` as claimed. -/
theorem cohens_h_extremes_counterexample :
    cohens_h 0 1 = -Real.pi ∧ cohens_h 0 1 ≠ Real.pi := by
  have h : cohens_h 0 1 = -Real.pi := by
    unfold cohens_h
    rw [Real.sqrt_zero, Real.sqrt_one, Real.arcsin_zero, Real.arcsin_one]
    ring
  refine ⟨h, ?_⟩
  rw [h]
  intro hc
  have hpi := Real.pi_pos
  linarith

/-- C4 amended: `cohens_h 0 1 = -π` (the lower bound) and
`cohens_h 1 0 = π` (the upper bound). -/
theorem cohens_h_extremes :
    cohens_h 0 1 = -Real.pi ∧ cohens_h 1 0 = Real.pi := by
  constructor <;>
  · unfold cohens_h
    rw [Real.sqrt_zero, Real.sqrt_one, Real.arcsin_zero, Real.arcsin_one]
    ring

/-! ## Softmax normalizer: C2 -/

/-- C2: on a non-empty distribution with positive temperature, `softmax`
returns `exp(c/t)` over the sum of all such values entry by entry, preserves
the key sequence, yields values in [0,1], and the values sum to exactly 1
(hence within the 1e-9 relative tolerance). -/
theorem softmax_normalizer_spec (scores_dict : List (String × ℕ)) (t : ℝ)
    (hne : scores_dict ≠ []) (ht : 0 < t) :
    (∀ i : Fin scores_dict.length,
      (softmax scores_dict t).get (Fin.cast (softmax_length scores_dict t).symm i) =
        ((scores_dict.get i).1,
          Real.exp (((scores_dict.get i).2 : ℝ) / t) /
            (scores_dict.map (fun p => Real.exp ((p.2 : ℝ) / t))).sum)) ∧
    (softmax scores_dict t).map Prod.fst = scores_dict.map Prod.fst ∧
    (∀ q ∈ softmax scores_dict t, 0 ≤ q.2 ∧ q.2 ≤ 1) ∧
    ((softmax scores_dict t).map Prod.snd).sum = 1 ∧
    |((softmax scores_dict t).map Prod.snd).sum - 1| ≤ 1e-9 := by
  have hS : 0 < (scores_dict.map (fun p => Real.exp ((p.2 : ℝ) / t))).sum :=
    exp_total_pos scores_dict t hne
  have hsum : ((softmax scores_dict t).map Prod.snd).sum = 1 := by
    simp only [softmax, List.map_map]
    have : (Prod.snd ∘ fun p : String × ℕ =>
        (p.1, Real.exp ((p.2 : ℝ) / t) /
          (scores_dict.map (fun q => Real.exp ((q.2 : ℝ) / t))).sum)) =
        (fun x => x / (scores_dict.map (fun q => Real.exp ((q.2 : ℝ) / t))).sum) ∘
          (fun p : String × ℕ => Real.exp ((p.2 : ℝ) / t)) := rfl
    rw [this, ← List.map_map, sum_map_div]
    exact div_self (ne_of_gt hS)
  refine ⟨?_, softmax_keys scores_dict t, ?_, hsum, by rw [hsum]; norm_num⟩
  · intro i
    simp [softmax, List.get_eq_getElem]
  · intro q hq
    simp only [softmax, List.mem_map] at hq
    rcases hq with ⟨p, hp, rfl⟩
    constructor
    · exact div_nonneg (Real.exp_pos _).le hS.le
    · rw [div_le_one hS]
      refine List.single_le_sum (fun x hx => ?_) _ (List.mem_map_of_mem _ hp)
      rcases List.mem_map.1 hx with ⟨y, _, rfl⟩
      exact (Real.exp_pos _).le

/-- Witness for C2 at the singleton distribution `[("A", 1)]`, temperature 1. -/
theorem softmax_normalizer_spec_witness :
    (softmax [("A", 1)] 1).map Prod.fst = [("A", (1 : ℕ))].map Prod.fst ∧
    ((softmax [("A", 1)] 1).map Prod.snd).sum = 1 :=
  ⟨(softmax_normalizer_spec [("A", 1)] 1 (by simp) (by norm_num)).2.1,
   (softmax_normalizer_spec [("A", 1)] 1 (by simp) (by norm_num)).2.2.2.1⟩

/-! ## Combined-direction distribution: C1 -/

/-- C1: for every system the combined-direction probabilities are the softmax
of the label-wise sum of the two per-direction distributions (sum first, then
one softmax): the combined keys are the Spanish→Greek keys followed by the new
Greek→Spanish keys, every combined count is the sum of the two per-direction
counts with absence counting as 0, and the worked example
{A:29,B:13} + {A:28,C:24} = {A:57,B:13,C:24} holds. -/
theorem combined_softmax_spec :
    (∀ sys ∈ systems,
      combined_probs sys = softmax (combine_distributions
        [getScores spanish_greek_scores sys, getScores greek_spanish_scores sys]) 1 ∧
      (all_scores sys).map Prod.fst =
        (getScores spanish_greek_scores sys).map Prod.fst ++
          ((getScores greek_spanish_scores sys).map Prod.fst).filter
            (fun l => !((getScores spanish_greek_scores sys).map Prod.fst).contains l) ∧
      ∀ p ∈ all_scores sys,
        p.2 = ((getScores spanish_greek_scores sys).lookup p.1).getD 0 +
              ((getScores greek_spanish_scores sys).lookup p.1).getD 0) ∧
    combine_distributions [[("A", 29), ("B", 13)], [("A", 28), ("C", 24)]] =
      [("A", 57), ("B", 13), ("C", 24)] := by
  constructor
  · intro sys hsys
    fin_cases hsys <;> exact ⟨rfl, by decide, by decide⟩
  · decide

/-- Witness for C1 at the system "Google Translate". -/
theorem combined_softmax_spec_witness :
    combined_probs "Google Translate" = softmax (combine_distributions
      [getScores spanish_greek_scores "Google Translate",
       getScores greek_spanish_scores "Google Translate"]) 1 ∧
    ∀ p ∈ all_scores "Google Translate",
      p.2 = ((getScores spanish_greek_scores "Google Translate").lookup p.1).getD 0 +
            ((getScores greek_spanish_scores "Google Translate").lookup p.1).getD 0 :=
  ⟨(combined_softmax_spec.1 "Google Translate" (by decide)).1,
   (combined_softmax_spec.1 "Google Translate" (by decide)).2.2⟩

/-! ## Error handling of the core functions: C5 -/

/-- C5 counterexample: on the empty distribution (where the claim demands an
InvalidInput failure) the source softmax raises nothing and returns the empty
mapping. -/
theorem softmax_empty_no_error : softmax [] 1 = [] := rfl

/-- C5 amended: the source performs no input validation and never raises:
`softmax` returns an output whose key sequence equals the input key sequence
for every distribution and temperature (including the empty distribution,
which yields the empty mapping, and temperatures ≤ 0), and `cohens_h` is a
total function given by the arcsine-difference formula on all real arguments,
out-of-range proportions included. -/
theorem no_input_validation :
    (∀ (scores_dict : List (String × ℕ)) (t : ℝ),
      (softmax scores_dict t).map Prod.fst = scores_dict.map Prod.fst) ∧
    (∀ t : ℝ, softmax [] t = []) ∧
    ∀ p1 p2 : ℝ,
      cohens_h p1 p2 = 2 * (Real.arcsin (Real.sqrt p1) - Real.arcsin (Real.sqrt p2)) :=
  ⟨softmax_keys, fun _ => rfl, fun _ _ => rfl⟩

/-! ## Effect-size classifier: C6 -/

/-- Modelled from the spec: the effect-size classifier is not implemented as
a function in the source; only its threshold table appears there, in the
docstring of `cohens_h` (lines 99-103) and in the printed interpretation
section (lines 206-210).  This definition follows those thresholds. -/
def classify (h : ℚ) : String :=
  if |h| < 0.2 then "small"
  else if |h| < 0.5 then "small-to-medium"
  else if |h| < 0.8 then "medium-to-large"
  else "large/huge"

/-- C6: the classifier is a pure function of `|h|` with the documented
bands, and the boundary values 0.19, 0.2, 0.8 fall in the documented bands.
It returns a label and leaves the h value untouched. -/
theorem classify_spec :
    (∀ h : ℚ, |h| < 0.2 → classify h = "small") ∧
    (∀ h : ℚ, 0.2 ≤ |h| → |h| < 0.5 → classify h = "small-to-medium") ∧
    (∀ h : ℚ, 0.5 ≤ |h| → |h| < 0.8 → classify h = "medium-to-large") ∧
    (∀ h : ℚ, 0.8 ≤ |h| → classify h = "large/huge") ∧
    (∀ h : ℚ, classify h = classify |h|) ∧
    classify 0.19 = "small" ∧ classify 0.2 = "small-to-medium" ∧
    classify 0.8 = "large/huge" := by
  have band1 : ∀ h : ℚ, |h| < 0.2 → classify h = "small" := by
    intro h h1
    unfold classify
    rw [if_pos h1]
  have band2 : ∀ h : ℚ, 0.2 ≤ |h| → |h| < 0.5 → classify h = "small-to-medium" := by
    intro h h1 h2
    unfold classify
    rw [if_neg (not_lt.2 h1), if_pos h2]
  have band4 : ∀ h : ℚ, 0.8 ≤ |h| → classify h = "large/huge" := by
    intro h h1
    unfold classify
    rw [if_neg (by linarith), if_neg (by linarith), if_neg (not_lt.2 h1)]
  refine ⟨band1, band2, ?_, band4, ?_,
    band1 0.19 (by rw [abs_of_nonneg (by norm_num : (0:ℚ) ≤ 0.19)]; norm_num),
    band2 0.2 (by rw [abs_of_nonneg (by norm_num : (0:ℚ) ≤ 0.2)])
      (by rw [abs_of_nonneg (by norm_num : (0:ℚ) ≤ 0.2)]; norm_num),
    band4 0.8 (by rw [abs_of_nonneg (by norm_num : (0:ℚ) ≤ 0.8)])⟩
  · intro h h1 h2
    unfold classify
    rw [if_neg (by linarith), if_neg (not_lt.2 h1), if_pos h2]
  · intro h
    unfold classify
    rw [abs_abs]

/-- Witness for C6 at h = 0.3. -/
theorem classify_spec_witness : classify 0.3 = "small-to-medium" :=
  classify_spec.2.1 0.3
    (by rw [abs_of_nonneg (by norm_num : (0:ℚ) ≤ 0.3)]; norm_num)
    (by rw [abs_of_nonneg (by norm_num : (0:ℚ) ≤ 0.3)]; norm_num)

/-! ## Reduction factor: C8 -/

/-- Error kinds of the design: invalid input and undefined division. -/
inductive StatError where
  | invalidInput : StatError
  | divisionUndefined : StatError
  deriving DecidableEq, Repr

/-- Modelled from the spec: `reduction_factor` is not a named function in the
source; line 216 divides the two rates inline (and a zero float divisor
raises in Python rather than yielding infinity).  Per the contract it fails
with DivisionUndefined when the improved rate is 0 and returns the plain
ratio otherwise. -/
def reduction_factor (baseline_rate improved_rate : ℚ) : Except StatError ℚ :=
  if improved_rate = 0 then Except.error StatError.divisionUndefined
  else Except.ok (baseline_rate / improved_rate)

/-- C8: `reduction_factor` returns `baseline / improved` whenever the
improved rate is nonzero, fails with DivisionUndefined exactly on a zero
improved rate, and on the study rates 0.7589 and 0.0714 the ratio is within
0.1 of 10.6. -/
theorem reduction_factor_spec :
    (∀ b i : ℚ, i ≠ 0 → reduction_factor b i = Except.ok (b / i)) ∧
    (∀ b : ℚ, reduction_factor b 0 = Except.error StatError.divisionUndefined) ∧
    reduction_factor 0.7589 0.0714 = Except.ok (0.7589 / 0.0714) ∧
    |(0.7589 : ℚ) / 0.0714 - 10.6| ≤ 0.1 := by
  refine ⟨fun b i hi => by simp [reduction_factor, hi],
    fun b => by simp [reduction_factor], by norm_num [reduction_factor],
    by rw [abs_le]; constructor <;> norm_num⟩

/-- Witness for C8 at the study rates. -/
theorem reduction_factor_spec_witness :
    reduction_factor 0.7589 0.0714 = Except.ok ((0.7589 : ℚ) / 0.0714) :=
  reduction_factor_spec.1 0.7589 0.0714 (by norm_num)

/-! ## Bias error records: C9 -/

/-- A bias error record: an error count and its denominator. -/
structure BiasErrorRecord where
  errors : ℕ
  denominator : ℕ
  deriving DecidableEq, Repr

/-- Modelled from the spec: `combine_error_records` is not a function in the
source (the Combined row of `bias_errors` is entered by hand); it sums the
errors and sums the denominators of the given records. -/
def combine_error_records (records : List BiasErrorRecord) : BiasErrorRecord :=
  ⟨(records.map BiasErrorRecord.errors).sum,
   (records.map BiasErrorRecord.denominator).sum⟩

/-- The record of one direction and system of the `bias_errors` table,
paired with the matching denominator from `total_sentences`. -/
def biasRecord (dir sys : String) : BiasErrorRecord :=
  ⟨(((bias_errors.lookup dir).getD []).lookup sys).getD 0,
   if dir = "Combined" then total_sentences_combined
   else total_sentences_per_direction⟩

/-- Every record of the `bias_errors` table with its denominator. -/
def allBiasRecords : List BiasErrorRecord :=
  bias_errors.flatMap (fun d => d.2.map (fun s =>
    ⟨s.2, if d.1 = "Combined" then total_sentences_combined
          else total_sentences_per_direction⟩))

/-- C9: combining the two per-direction records of each system sums errors
and denominators and agrees with the hardcoded Combined row; the worked
example (45/56) + (40/56) = (85/112) holds; and every record of the dataset
satisfies `errors ≤ denominator` (the lower bound `0 ≤ errors` holds by the
ℕ type of the count). -/
theorem combine_error_records_spec :
    (∀ sys ∈ ["Google", "DeepL Classic", "DeepL Next Gen"],
      combine_error_records
        [biasRecord "Spanish→Greek" sys, biasRecord "Greek→Spanish" sys] =
        biasRecord "Combined" sys) ∧
    combine_error_records [⟨45, 56⟩, ⟨40, 56⟩] = ⟨85, 112⟩ ∧
    ∀ r ∈ allBiasRecords, r.errors ≤ r.denominator := by
  exact ⟨by decide, by decide, by decide⟩

/-- Witness for C9 at the system "Google". -/
theorem combine_error_records_spec_witness :
    combine_error_records
      [biasRecord "Spanish→Greek" "Google", biasRecord "Greek→Spanish" "Google"] =
      biasRecord "Combined" "Google" :=
  combine_error_records_spec.1 "Google" (by decide)

/-! ## Softmax preserves the order of counts: C10 -/

/-- C10: for positive temperature the softmax is strictly order-preserving
entry-wise: a strictly greater count gets a strictly greater probability and
equal counts get equal probabilities (so ranking by probability is ranking by
raw count). -/
theorem softmax_order_preserving (scores_dict : List (String × ℕ)) (t : ℝ)
    (ht : 0 < t) (i j : Fin scores_dict.length) :
    ((scores_dict.get i).2 < (scores_dict.get j).2 →
      ((softmax scores_dict t).get
        (Fin.cast (softmax_length scores_dict t).symm i)).2 <
      ((softmax scores_dict t).get
        (Fin.cast (softmax_length scores_dict t).symm j)).2) ∧
    ((scores_dict.get i).2 = (scores_dict.get j).2 →
      ((softmax scores_dict t).get
        (Fin.cast (softmax_length scores_dict t).symm i)).2 =
      ((softmax scores_dict t).get
        (Fin.cast (softmax_length scores_dict t).symm j)).2) := by
  have hne : scores_dict ≠ [] := by
    intro h
    subst h
    exact i.elim0
  have hS := exp_total_pos scores_dict t hne
  have hval : ∀ k : Fin scores_dict.length,
      ((softmax scores_dict t).get
        (Fin.cast (softmax_length scores_dict t).symm k)).2 =
      Real.exp (((scores_dict.get k).2 : ℝ) / t) /
        (scores_dict.map (fun p => Real.exp ((p.2 : ℝ) / t))).sum := by
    intro k
    simp [softmax, List.get_eq_getElem]
  constructor
  · intro hlt
    rw [hval i, hval j]
    refine (div_lt_div_iff_of_pos_right hS).2 (Real.exp_lt_exp.2 ?_)
    exact (div_lt_div_iff_of_pos_right ht).2 (by exact_mod_cast hlt)
  · intro heq
    rw [hval i, hval j, heq]

/-- Witness for C10 on the distribution [("A",0), ("B",3)] at temperature 1. -/
theorem softmax_order_preserving_witness :
    ((softmax [("A", 0), ("B", 3)] 1).get ⟨0, by simp [softmax]⟩).2 <
    ((softmax [("A", 0), ("B", 3)] 1).get ⟨1, by simp [softmax]⟩).2 :=
  (softmax_order_preserving [("A", 0), ("B", 3)] 1 (by norm_num)
    ⟨0, by norm_num⟩ ⟨1, by norm_num⟩).1 (by norm_num)

/-! ## Report ordering: C7

The report emits every probability distribution through
`sorted(probs.items(), key=lambda x: x[1], reverse=True)` (lines 138 and 173
of the source): Python sorts are stable, and `reverse=True` keeps that
stability, so the emitted order is descending probability with ties in
original input order.  `sorted_probs` embeds that sort; the claim theorem
characterises it completely. -/

def probGe (a b : String × ℝ) : Prop := b.2 ≤ a.2

noncomputable instance : DecidableRel probGe := fun a b =>
  inferInstanceAs (Decidable (b.2 ≤ a.2))

instance : IsTotal (String × ℝ) probGe := ⟨fun a b => le_total b.2 a.2⟩

instance : IsTrans (String × ℝ) probGe := ⟨fun _ _ _ h1 h2 => le_trans h2 h1⟩

noncomputable def sorted_probs (probs : List (String × ℝ)) : List (String × ℝ) :=
  List.insertionSort probGe probs

theorem filter_orderedInsert_of_ne (c : ℝ) (x : String × ℝ) (hx : x.2 ≠ c) :
    ∀ l : List (String × ℝ),
      (List.orderedInsert probGe x l).filter (fun p => decide (p.2 = c)) =
        l.filter (fun p => decide (p.2 = c))
  | [] => by simp [hx]
  | y :: l => by
    by_cases h : probGe x y
    · rw [List.orderedInsert, if_pos h, List.filter_cons]
      simp [hx]
    · rw [List.orderedInsert, if_neg h, List.filter_cons, List.filter_cons,
        filter_orderedInsert_of_ne c x hx l]

theorem filter_orderedInsert_of_eq (c : ℝ) (x : String × ℝ) (hx : x.2 = c) :
    ∀ l : List (String × ℝ), l.Sorted probGe →
      (List.orderedInsert probGe x l).filter (fun p => decide (p.2 = c)) =
        x :: l.filter (fun p => decide (p.2 = c))
  | [], _ => by simp [hx]
  | y :: l, hs => by
    by_cases h : probGe x y
    · rw [List.orderedInsert, if_pos h, List.filter_cons]
      simp [hx]
    · have hxy : x.2 < y.2 := lt_of_not_le h
      have hy : y.2 ≠ c := by
        intro hyc
        rw [hx] at hxy
        rw [hyc] at hxy
        exact lt_irrefl c hxy
      rw [List.orderedInsert, if_neg h, List.filter_cons,
        filter_orderedInsert_of_eq c x hx l (List.sorted_cons.1 hs).2,
        List.filter_cons]
      simp [hy]

theorem filter_insertionSort (c : ℝ) :
    ∀ l : List (String × ℝ),
      (List.insertionSort probGe l).filter (fun p => decide (p.2 = c)) =
        l.filter (fun p => decide (p.2 = c))
  | [] => rfl
  | x :: l => by
    rw [List.insertionSort]
    by_cases hx : x.2 = c
    · rw [filter_orderedInsert_of_eq c x hx _ (List.sorted_insertionSort probGe _),
        filter_insertionSort c l, List.filter_cons]
      simp [hx]
    · rw [filter_orderedInsert_of_ne c x hx, filter_insertionSort c l,
        List.filter_cons]
      simp [hx]

theorem sorted_filter_ext :
    ∀ l m : List (String × ℝ), l.Sorted probGe → m.Sorted probGe →
      (∀ c : ℝ, l.filter (fun p => decide (p.2 = c)) =
        m.filter (fun p => decide (p.2 = c))) → l = m
  | [], [], _, _, _ => rfl
  | [], y :: m, _, _, hf => by
    have := hf y.2
    simp [List.filter_cons] at this
  | x :: l, [], _, _, hf => by
    have := hf x.2
    simp [List.filter_cons] at this
  | x :: l, y :: m, hsl, hsm, hf => by
    have hmem : ∀ (a : String × ℝ) (zs : List (String × ℝ)), zs.Sorted probGe →
        (∃ z ∈ zs, z.2 = a.2) → a.2 ≤ (zs.headI).2 ∨ zs = [] := by
      intro a zs hzs hex
      cases zs with
      | nil => exact Or.inr rfl
      | cons z zs =>
        left
        rcases hex with ⟨w, hw, hweq⟩
        rcases List.mem_cons.1 hw with rfl | hw2
        · simp [← hweq]
        · have := List.rel_of_sorted_cons hzs w hw2
          simp only [List.headI]
          calc a.2 = w.2 := hweq.symm
            _ ≤ z.2 := this
    have hfilter_ne : ∀ (a : String × ℝ) (zs : List (String × ℝ)),
        zs.filter (fun p => decide (p.2 = a.2)) ≠ [] → ∃ z ∈ zs, z.2 = a.2 := by
      intro a zs hne
      rcases List.exists_mem_of_ne_nil _ hne with ⟨z, hz⟩
      have hz2 := List.mem_filter.1 hz
      exact ⟨z, hz2.1, of_decide_eq_true hz2.2⟩
    have hxm : ∃ z ∈ y :: m, z.2 = x.2 := by
      refine hfilter_ne x (y :: m) ?_
      rw [← hf x.2, List.filter_cons, if_pos (by simp)]
      exact List.cons_ne_nil _ _
    have hym : ∃ z ∈ x :: l, z.2 = y.2 := by
      refine hfilter_ne y (x :: l) ?_
      rw [hf y.2, List.filter_cons, if_pos (by simp)]
      exact List.cons_ne_nil _ _
    have hxy : x.2 = y.2 := by
      rcases hmem x (y :: m) hsm hxm with h | h
      · rcases hmem y (x :: l) hsl hym with h2 | h2
        · simp only [List.headI] at h h2
          exact le_antisymm (by simpa using h) (by simpa using h2)
        · exact absurd h2 (List.cons_ne_nil _ _)
      · exact absurd h (List.cons_ne_nil _ _)
    -- heads equal, tail filters equal
    have hcons := hf x.2
    rw [List.filter_cons, List.filter_cons] at hcons
    rw [if_pos (by simp), if_pos (by simp [hxy])] at hcons
    have hxeqy : x = y := (List.cons.injEq _ _ _ _ ▸ hcons).1
    have htail : ∀ c : ℝ, l.filter (fun p => decide (p.2 = c)) =
        m.filter (fun p => decide (p.2 = c)) := by
      intro c
      by_cases hc : x.2 = c
      · have h1 := hf c
        rw [List.filter_cons, List.filter_cons] at h1
        rw [if_pos (by simp [hc]), if_pos (by simp [hxy ▸ hc])] at h1
        exact (List.cons.injEq _ _ _ _ ▸ h1).2
      · have h1 := hf c
        rw [List.filter_cons, List.filter_cons] at h1
        rw [if_neg (by simp [hc]), if_neg (by simp [hxeqy ▸ hc])] at h1
        exact h1
    rw [hxeqy, sorted_filter_ext l m (List.sorted_cons.1 hsl).2 (List.sorted_cons.1 hsm).2 htail]

/-- C7: the report sort returns a permutation of its input, ordered by
descending probability (each entry is ≥ the next), stable (for every
probability value the subsequence of entries carrying it equals that of the
input), and the output depends on nothing else: any two inputs with the same
per-probability subsequences sort to the same list. -/
theorem report_sort_spec (probs : List (String × ℝ)) :
    (sorted_probs probs).Perm probs ∧
    (sorted_probs probs).Sorted probGe ∧
    (∀ c : ℝ, (sorted_probs probs).filter (fun p => decide (p.2 = c)) =
      probs.filter (fun p => decide (p.2 = c))) ∧
    ∀ other : List (String × ℝ),
      (∀ c : ℝ, probs.filter (fun p => decide (p.2 = c)) =
        other.filter (fun p => decide (p.2 = c))) →
      sorted_probs probs = sorted_probs other := by
  refine ⟨List.perm_insertionSort probGe probs,
    List.sorted_insertionSort probGe probs,
    fun c => filter_insertionSort c probs, ?_⟩
  intro other hsame
  apply sorted_filter_ext _ _ (List.sorted_insertionSort probGe probs)
    (List.sorted_insertionSort probGe other)
  intro c
  rw [filter_insertionSort c probs, filter_insertionSort c other, hsame c]

/-- Witness for C7: two interleavings with the same per-probability
subsequences sort identically. -/
theorem report_sort_spec_witness :
    sorted_probs [("A", 1), ("B", 2)] = sorted_probs [("B", 2), ("A", 1)] :=
  (report_sort_spec [("A", 1), ("B", 2)]).2.2.2 [("B", 2), ("A", 1)] (by
    intro c
    by_cases h1 : (1 : ℝ) = c
    · subst h1
      norm_num [List.filter_cons]
    · by_cases h2 : (2 : ℝ) = c
      · subst h2
        norm_num [List.filter_cons]
      · simp [List.filter_cons, h1, h2])
